import Mathlib

/-!
Verification development for `update_layout.py`: a script that reads one XML
layout file, applies five ordered `re.sub` text substitutions to its content,
and writes the result back.

The five regular expressions use only these features, each of which matches
deterministically on the pattern shapes involved:
  * literal text;
  * `\d+` (one or more digits) always followed in the pattern by a non-digit
    literal, so greedy matching reduces to maximal munch;
  * `\s+` (one or more whitespace characters) always followed in the pattern
    by a non-whitespace literal, so greedy matching reduces to maximal munch;
  * `[\s\S]*?` (non-greedy any-character gap) always followed by a literal,
    so it reduces to scanning for the first occurrence of that literal;
  * a group-1 backreference `\1` that re-emits the text matched before the
    replaced literal.
`re.sub` replaces every non-overlapping match, scanning left to right and
resuming immediately after each match.  The embedding below models the
document as `List Char` and each rule as a total function; the character
classes `\d` and `\s` are modelled over their ASCII ranges (the file the
script targets is ASCII XML).
-/

/-- `leadEq p s` is `true` iff `p` is an initial segment of `s`. -/
def leadEq : List Char → List Char → Bool
  | [], _ => true
  | _ :: _, [] => false
  | a :: as, b :: bs => if a = b then leadEq as bs else false

/-- Index of the first occurrence of `p` as a contiguous block of `s`
(the position a regex engine finds when scanning left to right). -/
def firstOccur (p : List Char) : List Char → Option Nat
  | [] => if p = [] then some 0 else none
  | c :: t => if leadEq p (c :: t) then some 0 else Option.map (· + 1) (firstOccur p t)

/-- Matcher for a literal pattern anchored at the start of the input:
returns the number of characters consumed. -/
def litPre (lit : List Char) (s : List Char) : Option Nat :=
  if leadEq lit s then some lit.length else none

/-- ASCII whitespace, as matched by Python's `\s` on ASCII text. -/
def isPySpace (c : Char) : Bool :=
  c = ' ' || c = '\t' || c = '\n' || c = '\r' || c = '\x0b' || c = '\x0c'

/-- The literal head of rule 1's pattern `android:id="@\+id/cell_\d+_\d+"`. -/
def cellHead : List Char := "android:id=\"@+id/cell_".toList

/-- Anchored matcher for rule 1's group prefix `android:id="@\+id/cell_\d+_\d+"`:
the literal head, one or more digits, an underscore, one or more digits and a
closing quote.  Each `\d+` is followed by a non-digit literal, so the greedy
match is the maximal digit run. -/
def pre1 (s : List Char) : Option Nat :=
  if leadEq cellHead s then
    let s1 := s.drop cellHead.length
    let r := s1.takeWhile Char.isDigit
    let s2 := s1.drop r.length
    if leadEq ['_'] s2 then
      let c := (s2.drop 1).takeWhile Char.isDigit
      if leadEq ['"'] ((s2.drop 1).drop c.length) then
        if r = [] || c = [] then none
        else some (cellHead.length + r.length + 1 + c.length + 1)
      else none
    else none
  else none

/-- One match attempt of a pattern of the shape `(pre[\s\S]*?)S` anchored at
the start of the input: the anchored sub-matcher `pre` followed by a
non-greedy gap up to the first occurrence of the literal `S`.  Returns the
total length of the match. -/
def gapMatch (pre : List Char → Option Nat) (S : List Char) (s : List Char) : Option Nat :=
  match pre s with
  | none => none
  | some k => Option.map (fun j => k + j + S.length) (firstOccur S (s.drop k))

/-- `patMatches m s` is `true` iff the anchored matcher `m` fires at some
position of `s` — i.e. the corresponding pattern has a match in `s`. -/
def patMatches (m : List Char → Option Nat) : List Char → Bool
  | [] => false
  | c :: t => (m (c :: t)).isSome || patMatches m t

/-- Fuel-indexed worker for `subGap`.  The scan consumes at least one
character per step (the matched literal `S` of every rule is nonempty), so
running it with fuel equal to the input length realises the unbounded
left-to-right scan of `re.sub` while staying structurally recursive. -/
def subGapF (pre : List Char → Option Nat) (S newS : List Char) : Nat → List Char → List Char
  | _, [] => []
  | 0, s => s
  | fuel + 1, c :: t =>
    match pre (c :: t) with
    | none => c :: subGapF pre S newS fuel t
    | some k =>
      match firstOccur S ((c :: t).drop k) with
      | none => c :: subGapF pre S newS fuel t
      | some j =>
        (c :: t).take (k + j) ++ newS ++ subGapF pre S newS fuel ((c :: t).drop (k + j + S.length))

/-- Global substitution for a pattern `(pre[\s\S]*?)S` with replacement
`\1 ++ newS` (rules 1, 3 and 4): scan left to right; at each position where
`pre` matches and the literal `S` occurs later, keep everything up to that
occurrence of `S`, emit `newS` in place of `S`, and resume after it. -/
def subGap (pre : List Char → Option Nat) (S newS : List Char) (s : List Char) : List Char :=
  subGapF pre S newS s.length s

/-- Fuel-indexed worker for `subPat`; fuel plays the same role as in
`subGapF` (every matched span of rules 2 and 5 is nonempty). -/
def subPatF (m : List Char → Option Nat) (rep : List Char) : Nat → List Char → List Char
  | _, [] => []
  | 0, s => s
  | fuel + 1, c :: t =>
    match m (c :: t) with
    | none => c :: subPatF m rep fuel t
    | some k =>
      if k = 0 then c :: subPatF m rep fuel t
      else rep ++ subPatF m rep fuel ((c :: t).drop k)

/-- Global substitution for a pattern with a fixed replacement (rules 2
and 5): scan left to right; wherever the anchored matcher fires, emit the
replacement and resume after the matched span. -/
def subPat (m : List Char → Option Nat) (rep : List Char) (s : List Char) : List Char :=
  subPatF m rep s.length s

/-- Fuel-indexed worker for `subPatCount`. -/
def subPatCountF (m : List Char → Option Nat) : Nat → List Char → Nat
  | _, [] => 0
  | 0, _ => 0
  | fuel + 1, c :: t =>
    match m (c :: t) with
    | none => subPatCountF m fuel t
    | some k =>
      if k = 0 then subPatCountF m fuel t
      else 1 + subPatCountF m fuel ((c :: t).drop k)

/-- Number of times the scan of `subPat` fires (the number of replacements
performed by the corresponding `re.sub`). -/
def subPatCount (m : List Char → Option Nat) (s : List Char) : Nat :=
  subPatCountF m s.length s

/-- Number of positions of `s` at which the block `p` occurs. -/
def occCount (p : List Char) : List Char → Nat
  | [] => 0
  | c :: t => (if leadEq p (c :: t) then 1 else 0) + occCount p t

/-- Rule 1 target literal `android:textSize="18sp"`. -/
def S18 : List Char := "android:textSize=\"18sp\"".toList

/-- Rule 1 replacement for the matched literal. -/
def new18 : List Char := "android:textSize=\"@dimen/bingo_cell_text_size\"".toList

/-- Rule 1: `re.sub(r'(android:id="@\+id/cell_\d+_\d+"[\s\S]*?)android:textSize="18sp"', r'\1android:textSize="@dimen/bingo_cell_text_size"', content)`. -/
def rule1 (s : List Char) : List Char := subGap pre1 S18 new18 s

/-- Rule 2 pattern `android:layout_margin="2dp"`. -/
def pat2 : List Char := "android:layout_margin=\"2dp\"".toList

/-- Rule 2 replacement `android:layout_margin="@dimen/cell_margin"`. -/
def rep2 : List Char := "android:layout_margin=\"@dimen/cell_margin\"".toList

/-- Rule 2: `re.sub(r'android:layout_margin="2dp"', r'android:layout_margin="@dimen/cell_margin"', content)`. -/
def rule2 (s : List Char) : List Char := subPat (litPre pat2) rep2 s

/-- Rule 3 identifier literal `android:id="@+id/cell_2_2"`. -/
def id22 : List Char := "android:id=\"@+id/cell_2_2\"".toList

/-- Rules 3 and 4 target literal `android:textSize="16sp"`. -/
def S16 : List Char := "android:textSize=\"16sp\"".toList

/-- Rule 3 replacement for the matched literal. -/
def new16free : List Char := "android:textSize=\"@dimen/bingo_free_text_size\"".toList

/-- Rule 3: `re.sub(r'(android:id="@\+id/cell_2_2"[\s\S]*?)android:textSize="16sp"', r'\1android:textSize="@dimen/bingo_free_text_size"', content)`. -/
def rule3 (s : List Char) : List Char := subGap (litPre id22) S16 new16free s

/-- Rule 4 identifier literal `android:id="@+id/actionButton"`. -/
def idBtn : List Char := "android:id=\"@+id/actionButton\"".toList

/-- Rule 4 replacement for the matched literal. -/
def new16btn : List Char := "android:textSize=\"@dimen/button_text_size\"".toList

/-- Rule 4: `re.sub(r'(android:id="@\+id/actionButton"[\s\S]*?)android:textSize="16sp"', r'\1android:textSize="@dimen/button_text_size"', content)`. -/
def rule4 (s : List Char) : List Char := subGap (litPre idBtn) S16 new16btn s

/-- Rule 5 first literal `android:layout_marginStart="32dp"`. -/
def L1 : List Char := "android:layout_marginStart=\"32dp\"".toList

/-- Rule 5 second literal `android:layout_marginEnd="32dp"`. -/
def L2 : List Char := "android:layout_marginEnd=\"32dp\"".toList

/-- Rule 5 third literal `android:layout_marginBottom="24dp"`. -/
def L3 : List Char := "android:layout_marginBottom=\"24dp\"".toList

/-- Rule 5 replacement: the three symbolic-reference attributes, each on its
own line, the second and third indented by eight spaces (the `\n` escapes in
the Python replacement template are processed by `re.sub`). -/
def rep5 : List Char :=
  ("android:layout_marginStart=\"@dimen/button_margin_horizontal\"\n" ++
   "        android:layout_marginEnd=\"@dimen/button_margin_horizontal\"\n" ++
   "        android:layout_marginBottom=\"@dimen/button_margin_bottom\"").toList

/-- Anchored matcher for rule 5's pattern
`android:layout_marginStart="32dp"\s+android:layout_marginEnd="32dp"\s+android:layout_marginBottom="24dp"`.
Each `\s+` is followed by a literal starting with a non-whitespace character,
so the greedy match is the maximal whitespace run. -/
def matchRule5 (s : List Char) : Option Nat :=
  if leadEq L1 s then
    let s1 := s.drop L1.length
    let w1 := s1.takeWhile isPySpace
    if w1 = [] then none
    else
      let s2 := s1.drop w1.length
      if leadEq L2 s2 then
        let s3 := s2.drop L2.length
        let w2 := s3.takeWhile isPySpace
        if w2 = [] then none
        else
          let s4 := s3.drop w2.length
          if leadEq L3 s4 then
            some (L1.length + w1.length + L2.length + w2.length + L3.length)
          else none
      else none
  else none

/-- Rule 5: `re.sub(r'android:layout_marginStart="32dp"\s+android:layout_marginEnd="32dp"\s+android:layout_marginBottom="24dp"', ...)`. -/
def rule5 (s : List Char) : List Char := subPat matchRule5 rep5 s

/-- The whole transform applied by the script between the read and the
write: the five substitutions in program order. -/
def transform (s : List Char) : List Char := rule5 (rule4 (rule3 (rule2 (rule1 s))))

/-- The identifier attribute `android:id="@+id/cell_<r>_<c>"` for row digits
`r` and column digits `c`, as matched by rule 1's group prefix. -/
def cellId (r c : List Char) : List Char := cellHead ++ r ++ ('_' :: (c ++ ['"']))

/-- Concrete text used after the first `"16sp"` attribute of the C9 witness
document: a second `"16sp"` attribute and a three-margin block. -/
def c9b : List Char :=
  " xx ".toList ++ (S16 ++ (" ".toList ++ (L1 ++ (" ".toList ++ (L2 ++
    (" ".toList ++ L3))))))

/-- Concrete test document for the C9 witness: a `cell_0_0` identifier with
an `"18sp"` text size (rule 1 fires), a `"2dp"` margin (rule 2 fires), then
the `actionButton` identifier, the `cell_2_2` identifier, a first `"16sp"`
attribute and the tail `c9b` with a second `"16sp"` attribute and a
three-margin block (rule 5 material). -/
def c9doc : List Char :=
  "<x> ".toList ++ (cellId ['0'] ['0'] ++ (" ".toList ++ (S18 ++ (" ".toList ++
    (pat2 ++ (" ".toList ++ (idBtn ++ (" mm ".toList ++ (id22 ++ (" gg ".toList ++
      (S16 ++ c9b)))))))))))

/-- The text of `c9doc` before its `actionButton` identifier, as rewritten by
rules 1 and 2. -/
def c9a : List Char :=
  "<x> ".toList ++ (cellId ['0'] ['0'] ++ (" ".toList ++ (new18 ++ (" ".toList ++
    (rep2 ++ " ".toList)))))

/-! ### Basic facts about `leadEq` and `firstOccur` -/

theorem leadEq_app (x y : List Char) : leadEq x (x ++ y) = true := by
  induction x with
  | nil => rfl
  | cons a as ih => simp [leadEq, ih]

theorem leadEq_nil_right : ∀ (p : List Char), leadEq p [] = true ↔ p = [] := by
  intro p
  cases p with
  | nil => simp [leadEq]
  | cons a as => simp [leadEq]

theorem leadEq_len : ∀ {p s : List Char}, leadEq p s = true → p.length ≤ s.length := by
  intro p
  induction p with
  | nil => intro s _; simp
  | cons a as ih =>
    intro s h
    cases s with
    | nil => exact absurd h (by simp [leadEq])
    | cons b bs =>
      rw [leadEq] at h
      split at h
      · have := ih h
        simp only [List.length_cons]
        omega
      · exact absurd h (by simp)

theorem leadEq_take_eq : ∀ {p s : List Char}, leadEq p s = true → s.take p.length = p := by
  intro p
  induction p with
  | nil => intro s _; simp
  | cons a as ih =>
    intro s h
    cases s with
    | nil => exact absurd h (by simp [leadEq])
    | cons b bs =>
      rw [leadEq] at h
      split at h
      · rename_i hab
        subst hab
        simp only [List.length_cons, List.take_succ_cons, List.cons.injEq, true_and]
        exact ih h
      · exact absurd h (by simp)

theorem leadEq_ex {p s : List Char} (h : leadEq p s = true) : s = p ++ s.drop p.length := by
  conv_lhs => rw [← List.take_append_drop p.length s]
  rw [leadEq_take_eq h]

theorem leadEq_app_swap : ∀ {p x : List Char} (y : List Char), p.length ≤ x.length →
    leadEq p (x ++ y) = leadEq p x := by
  intro p
  induction p with
  | nil => intro x y _; cases x <;> simp [leadEq]
  | cons a as ih =>
    intro x y h
    cases x with
    | nil => simp at h
    | cons b bs =>
      have h2 : as.length ≤ bs.length := by simp only [List.length_cons] at h; omega
      simp only [List.cons_append, leadEq]
      by_cases hab : a = b
      · simp [hab, ih y h2]
      · simp [hab]

theorem leadEq_split : ∀ {x p : List Char} (y : List Char), x.length ≤ p.length →
    leadEq p (x ++ y) = true → p.take x.length = x ∧ leadEq (p.drop x.length) y = true := by
  intro x
  induction x with
  | nil => intro p y _ h; simpa using h
  | cons b bs ih =>
    intro p y hl h
    cases p with
    | nil => simp at hl
    | cons a as =>
      simp only [List.cons_append, leadEq] at h
      split at h
      · rename_i hab
        have hl2 : bs.length ≤ as.length := by simp only [List.length_cons] at hl; omega
        obtain ⟨h1, h2⟩ := ih y hl2 h
        subst hab
        refine ⟨?_, ?_⟩
        · simp only [List.length_cons, List.take_succ_cons, List.cons.injEq, true_and]
          exact h1
        · simpa using h2
      · exact absurd h (by simp)

theorem firstOccur_none_iff : ∀ (p s : List Char),
    firstOccur p s = none ↔ ∀ i, leadEq p (List.drop i s) = false := by
  intro p s
  induction s with
  | nil =>
    simp only [firstOccur]
    constructor
    · intro h i
      split at h
      · exact absurd h (by simp)
      · rename_i hp
        rw [List.drop_nil]
        cases p with
        | nil => exact absurd rfl hp
        | cons a as => simp [leadEq]
    · intro h
      split
      · rename_i hp
        subst hp
        have := h 0
        simp [leadEq] at this
      · rfl
  | cons c t ih =>
    simp only [firstOccur]
    constructor
    · intro h i
      split at h
      · exact absurd h (by simp)
      · rename_i hlead
        have ht : firstOccur p t = none := by
          cases hf : firstOccur p t
          · rfl
          · rw [hf] at h; simp at h
        cases i with
        | zero => simpa using hlead
        | succ n =>
          rw [List.drop_succ_cons]
          exact (ih.mp ht) n
    · intro h
      have h0 := h 0
      simp only [List.drop_zero] at h0
      rw [if_neg (by simp [h0])]
      have ht : firstOccur p t = none := ih.mpr (fun i => by
        have := h (i + 1)
        rwa [List.drop_succ_cons] at this)
      simp [ht]

theorem firstOccur_some_spec : ∀ (p s : List Char) (n : Nat), firstOccur p s = some n →
    leadEq p (s.drop n) = true ∧ ∀ i, i < n → leadEq p (s.drop i) = false := by
  intro p s
  induction s with
  | nil =>
    intro n h
    simp only [firstOccur] at h
    split at h
    · rename_i hp
      subst hp
      have hn : n = 0 := (Option.some.inj h).symm
      subst hn
      exact ⟨by simp [leadEq], fun i hi => by omega⟩
    · exact absurd h (by simp)
  | cons c t ih =>
    intro n h
    simp only [firstOccur] at h
    split at h
    · rename_i hl
      have hn : n = 0 := by
        have := Option.some.inj h
        omega
      subst hn
      exact ⟨by simpa using hl, fun i hi => by omega⟩
    · rename_i hl
      cases hf : firstOccur p t with
      | none => rw [hf] at h; simp at h
      | some m =>
        rw [hf] at h
        simp only [Option.map_some'] at h
        have hn : n = m + 1 := by
          have := Option.some.inj h
          omega
        subst hn
        obtain ⟨h1, h2⟩ := ih m hf
        refine ⟨by simpa using h1, ?_⟩
        intro i hi
        cases i with
        | zero => simpa using hl
        | succ k =>
          rw [List.drop_succ_cons]
          exact h2 k (by omega)

/-! ### Unfolding and identity lemmas for the two scanners -/

theorem firstOccur_drop_none (p s : List Char) (h : firstOccur p s = none) (n : Nat) :
    firstOccur p (s.drop n) = none := by
  rw [firstOccur_none_iff] at h ⊢
  intro i
  rw [List.drop_drop]
  exact h (n + i)

theorem subGapF_congr (pre : List Char → Option Nat) (S newS : List Char) (hS : S ≠ []) :
    ∀ (f₁ f₂ : Nat) (s : List Char), s.length ≤ f₁ → s.length ≤ f₂ →
    subGapF pre S newS f₁ s = subGapF pre S newS f₂ s := by
  intro f₁
  induction f₁ with
  | zero =>
    intro f₂ s h1 _
    have hs : s = [] := List.eq_nil_of_length_eq_zero (by omega)
    subst hs
    cases f₂ <;> rfl
  | succ f ih =>
    intro f₂ s h1 h2
    cases s with
    | nil => cases f₂ <;> rfl
    | cons c t =>
      cases f₂ with
      | zero => simp at h2
      | succ g =>
        have hS1 : 0 < S.length := List.length_pos.mpr hS
        simp only [List.length_cons] at h1 h2
        cases hp : pre (c :: t) with
        | none =>
          simp only [subGapF, hp]
          rw [ih g t (by omega) (by omega)]
        | some k =>
          cases hj : firstOccur S ((c :: t).drop k) with
          | none =>
            simp only [subGapF, hp, hj]
            rw [ih g t (by omega) (by omega)]
          | some j =>
            simp only [subGapF, hp, hj]
            rw [ih g ((c :: t).drop (k + j + S.length))
              (by simp only [List.length_drop, List.length_cons]; omega)
              (by simp only [List.length_drop, List.length_cons]; omega)]

theorem gapMatch_none {pre : List Char → Option Nat} {s : List Char} (S : List Char)
    (h : pre s = none) : gapMatch pre S s = none := by
  unfold gapMatch
  rw [h]

theorem gapMatch_some {pre : List Char → Option Nat} {s : List Char} {k : Nat} (S : List Char)
    (h : pre s = some k) :
    gapMatch pre S s = Option.map (fun j => k + j + S.length) (firstOccur S (s.drop k)) := by
  unfold gapMatch
  rw [h]

theorem subGap_skip (pre : List Char → Option Nat) (S newS : List Char) (c : Char)
    (t : List Char) (h : gapMatch pre S (c :: t) = none) :
    subGap pre S newS (c :: t) = c :: subGap pre S newS t := by
  cases hp : pre (c :: t) with
  | none =>
    unfold subGap
    simp only [List.length_cons, subGapF, hp]
  | some k =>
    rw [gapMatch_some S hp] at h
    cases hj : firstOccur S ((c :: t).drop k) with
    | none =>
      unfold subGap
      simp only [List.length_cons, subGapF, hp, hj]
    | some j =>
      rw [hj] at h
      simp at h

theorem subGap_match (pre : List Char → Option Nat) (S newS : List Char) (s : List Char)
    (k j : Nat) (hS : S ≠ []) (hk : pre s = some k)
    (hj : firstOccur S (s.drop k) = some j) :
    subGap pre S newS s =
      s.take (k + j) ++ newS ++ subGap pre S newS (s.drop (k + j + S.length)) := by
  cases s with
  | nil =>
    rw [List.drop_nil] at hj
    simp only [firstOccur] at hj
    rw [if_neg hS] at hj
    cases hj
  | cons c t =>
    have hS1 : 0 < S.length := List.length_pos.mpr hS
    unfold subGap
    simp only [List.length_cons, subGapF, hk, hj]
    rw [subGapF_congr pre S newS hS t.length ((c :: t).drop (k + j + S.length)).length
      ((c :: t).drop (k + j + S.length))
      (by simp only [List.length_drop, List.length_cons]; omega) (Nat.le_refl _)]

theorem subGap_id (pre : List Char → Option Nat) (S newS : List Char) :
    ∀ s, patMatches (gapMatch pre S) s = false → subGap pre S newS s = s := by
  intro s
  induction s with
  | nil => intro _; rfl
  | cons c t ih =>
    intro h
    simp only [patMatches, Bool.or_eq_false_iff] at h
    obtain ⟨h1, h2⟩ := h
    have hm : gapMatch pre S (c :: t) = none := by
      cases hg : gapMatch pre S (c :: t)
      · rfl
      · rw [hg] at h1; simp at h1
    rw [subGap_skip pre S newS c t hm, ih h2]

theorem no_gap_match (pre : List Char → Option Nat) (S : List Char) :
    ∀ s, firstOccur S s = none → patMatches (gapMatch pre S) s = false := by
  intro s
  induction s with
  | nil => intro _; rfl
  | cons c t ih =>
    intro h
    have ht : firstOccur S t = none := by
      have := firstOccur_drop_none S (c :: t) h 1
      simpa using this
    simp only [patMatches, Bool.or_eq_false_iff]
    refine ⟨?_, ih ht⟩
    cases hp : pre (c :: t) with
    | none => rw [gapMatch_none S hp]; rfl
    | some k =>
      rw [gapMatch_some S hp, firstOccur_drop_none S (c :: t) h k]
      rfl

theorem subGap_id_noS (pre : List Char → Option Nat) (S newS : List Char) (s : List Char)
    (h : firstOccur S s = none) : subGap pre S newS s = s :=
  subGap_id pre S newS s (no_gap_match pre S s h)

theorem subPatF_congr (m : List Char → Option Nat) (rep : List Char) :
    ∀ (f₁ f₂ : Nat) (s : List Char), s.length ≤ f₁ → s.length ≤ f₂ →
    subPatF m rep f₁ s = subPatF m rep f₂ s := by
  intro f₁
  induction f₁ with
  | zero =>
    intro f₂ s h1 _
    have hs : s = [] := List.eq_nil_of_length_eq_zero (by omega)
    subst hs
    cases f₂ <;> rfl
  | succ f ih =>
    intro f₂ s h1 h2
    cases s with
    | nil => cases f₂ <;> rfl
    | cons c t =>
      cases f₂ with
      | zero => simp at h2
      | succ g =>
        simp only [List.length_cons] at h1 h2
        cases hp : m (c :: t) with
        | none =>
          simp only [subPatF, hp]
          rw [ih g t (by omega) (by omega)]
        | some k =>
          by_cases hk : k = 0
          · subst hk
            simp only [subPatF, hp, if_true]
            rw [ih g t (by omega) (by omega)]
          · simp only [subPatF, hp, if_neg hk]
            rw [ih g ((c :: t).drop k)
              (by simp only [List.length_drop, List.length_cons]; omega)
              (by simp only [List.length_drop, List.length_cons]; omega)]

theorem subPat_skip (m : List Char → Option Nat) (rep : List Char) (c : Char)
    (t : List Char) (h : m (c :: t) = none) :
    subPat m rep (c :: t) = c :: subPat m rep t := by
  unfold subPat
  simp only [List.length_cons, subPatF, h]

theorem subPat_match (m : List Char → Option Nat) (rep : List Char) (s : List Char)
    (k : Nat) (hs : s ≠ []) (hk : m s = some k) (h0 : k ≠ 0) :
    subPat m rep s = rep ++ subPat m rep (s.drop k) := by
  cases s with
  | nil => exact absurd rfl hs
  | cons c t =>
    unfold subPat
    simp only [List.length_cons, subPatF, hk, if_neg h0]
    congr 1
    apply subPatF_congr
    · simp only [List.length_drop, List.length_cons]; omega
    · exact Nat.le_refl _

theorem subPat_id (m : List Char → Option Nat) (rep : List Char) :
    ∀ s, patMatches m s = false → subPat m rep s = s := by
  intro s
  induction s with
  | nil => intro _; rfl
  | cons c t ih =>
    intro h
    simp only [patMatches, Bool.or_eq_false_iff] at h
    obtain ⟨h1, h2⟩ := h
    have hm : m (c :: t) = none := by
      cases hg : m (c :: t)
      · rfl
      · rw [hg] at h1; simp at h1
    rw [subPat_skip m rep c t hm, ih h2]

/-! ### Decomposition lemmas: what a rule does on a document that contains
exactly one designated match, preceded by match-free text -/

theorem takeWhile_app (q : Char → Bool) :
    ∀ (x : List Char), (∀ a ∈ x, q a = true) →
    ∀ (c : Char) (y : List Char), q c = false → (x ++ c :: y).takeWhile q = x := by
  intro x
  induction x with
  | nil =>
    intro _ c y hc
    simp [List.takeWhile_cons, hc]
  | cons a as ih =>
    intro hx c y hc
    have ha : q a = true := hx a (by simp)
    simp [List.takeWhile_cons, ha, ih (fun b hb => hx b (by simp [hb])) c y hc]

theorem subGap_split (pre : List Char → Option Nat) (S newS : List Char) (hS : S ≠ [])
    (P g b : List Char) (hP : pre (P ++ (g ++ (S ++ b))) = some P.length)
    (hg : firstOccur S (g ++ (S ++ b)) = some g.length) :
    ∀ a : List Char,
      (∀ i, i < a.length → pre ((a ++ (P ++ (g ++ (S ++ b)))).drop i) = none) →
      subGap pre S newS (a ++ (P ++ (g ++ (S ++ b)))) =
        a ++ (P ++ (g ++ (newS ++ subGap pre S newS b))) := by
  intro a
  induction a with
  | nil =>
    intro _
    simp only [List.nil_append]
    have hj : firstOccur S ((P ++ (g ++ (S ++ b))).drop P.length) = some g.length := by
      rw [List.drop_left]
      exact hg
    rw [subGap_match pre S newS _ P.length g.length hS hP hj]
    have htake : (P ++ (g ++ (S ++ b))).take (P.length + g.length) = P ++ g := by
      rw [List.take_append, List.take_left]
    have hdrop : (P ++ (g ++ (S ++ b))).drop (P.length + g.length + S.length) = b := by
      rw [Nat.add_assoc, List.drop_append, List.drop_append, List.drop_left]
    rw [htake, hdrop]
    simp [List.append_assoc]
  | cons x a' ih =>
    intro ha
    have h0 : pre (x :: (a' ++ (P ++ (g ++ (S ++ b))))) = none := by
      have := ha 0 (by simp)
      simpa using this
    simp only [List.cons_append]
    rw [subGap_skip pre S newS x (a' ++ (P ++ (g ++ (S ++ b)))) (gapMatch_none S h0)]
    rw [ih (fun i hi => by
      have := ha (i + 1) (by simp only [List.length_cons]; omega)
      simpa using this)]

theorem subPat_split (m : List Char → Option Nat) (rep : List Char)
    (P b : List Char) (hP0 : P ≠ []) (hP : m (P ++ b) = some P.length) :
    ∀ a : List Char, (∀ i, i < a.length → m ((a ++ (P ++ b)).drop i) = none) →
      subPat m rep (a ++ (P ++ b)) = a ++ (rep ++ subPat m rep b) := by
  intro a
  induction a with
  | nil =>
    intro _
    simp only [List.nil_append]
    rw [subPat_match m rep (P ++ b) P.length (by simp [hP0]) hP
      (by have := List.length_pos.mpr hP0; omega)]
    rw [List.drop_left]
  | cons x a' ih =>
    intro ha
    have h0 : m (x :: (a' ++ (P ++ b))) = none := by
      have := ha 0 (by simp)
      simpa using this
    simp only [List.cons_append]
    rw [subPat_skip m rep x (a' ++ (P ++ b)) h0]
    rw [ih (fun i hi => by
      have := ha (i + 1) (by simp only [List.length_cons]; omega)
      simpa using this)]

theorem litPre_app (lit rest : List Char) : litPre lit (lit ++ rest) = some lit.length := by
  unfold litPre
  rw [if_pos (leadEq_app lit rest)]

theorem takeWhile_app_cons (q : Char → Bool) (x : List Char) (hx : ∀ a ∈ x, q a = true)
    (c : Char) (y z : List Char) (hc : q c = false) :
    (x ++ ((c :: y) ++ z)).takeWhile q = x := by
  rw [List.cons_append]
  exact takeWhile_app q x hx c (y ++ z) hc

theorem pre1_cellId (r c rest : List Char) (hr : r ≠ [])
    (hrd : ∀ x ∈ r, Char.isDigit x = true) (hc : c ≠ [])
    (hcd : ∀ x ∈ c, Char.isDigit x = true) :
    pre1 (cellId r c ++ rest) = some (cellId r c).length := by
  have hshape : cellId r c ++ rest = cellHead ++ (r ++ ('_' :: (c ++ ('"' :: rest)))) := by
    simp [cellId]
  have hlen : (cellId r c).length = cellHead.length + r.length + 1 + c.length + 1 := by
    simp [cellId]
    omega
  rw [hshape, hlen]
  have h1 : leadEq cellHead (cellHead ++ (r ++ ('_' :: (c ++ ('"' :: rest))))) = true :=
    leadEq_app cellHead _
  have h2 : (cellHead ++ (r ++ ('_' :: (c ++ ('"' :: rest))))).drop cellHead.length
      = r ++ ('_' :: (c ++ ('"' :: rest))) := List.drop_left cellHead _
  have h3 : (r ++ ('_' :: (c ++ ('"' :: rest)))).takeWhile Char.isDigit = r :=
    takeWhile_app Char.isDigit r hrd '_' (c ++ ('"' :: rest)) rfl
  have h4 : (r ++ ('_' :: (c ++ ('"' :: rest)))).drop r.length = '_' :: (c ++ ('"' :: rest)) :=
    List.drop_left r _
  have h5 : leadEq ['_'] ('_' :: (c ++ ('"' :: rest))) = true := by
    simpa using leadEq_app ['_'] (c ++ ('"' :: rest))
  have h7 : (c ++ ('"' :: rest)).takeWhile Char.isDigit = c :=
    takeWhile_app Char.isDigit c hcd '"' rest rfl
  have h8 : (c ++ ('"' :: rest)).drop c.length = '"' :: rest := List.drop_left c _
  have h9 : leadEq ['"'] ('"' :: rest) = true := by
    simpa using leadEq_app ['"'] rest
  simp only [pre1, h1, if_true, h2, h3, h4, List.drop_succ_cons, List.drop_zero, h5, h7, h8, h9,
    hr, hc, if_false, Bool.or_self, Bool.false_eq_true, if_true]
  simp [hr, hc]

theorem matchRule5_app (w1 w2 v : List Char)
    (hw1 : w1 ≠ []) (hw1s : ∀ a ∈ w1, isPySpace a = true)
    (hw2 : w2 ≠ []) (hw2s : ∀ a ∈ w2, isPySpace a = true) :
    matchRule5 (L1 ++ (w1 ++ (L2 ++ (w2 ++ (L3 ++ v))))) =
      some (L1.length + w1.length + L2.length + w2.length + L3.length) := by
  have h1 : leadEq L1 (L1 ++ (w1 ++ (L2 ++ (w2 ++ (L3 ++ v))))) = true := leadEq_app L1 _
  have h2 : (L1 ++ (w1 ++ (L2 ++ (w2 ++ (L3 ++ v))))).drop L1.length
      = w1 ++ (L2 ++ (w2 ++ (L3 ++ v))) := List.drop_left L1 _
  have h3 : (w1 ++ (L2 ++ (w2 ++ (L3 ++ v)))).takeWhile isPySpace = w1 := by
    have e : L2 ++ (w2 ++ (L3 ++ v))
        = ('a' :: "ndroid:layout_marginEnd=\"32dp\"".toList) ++ (w2 ++ (L3 ++ v)) := rfl
    rw [e]
    exact takeWhile_app_cons isPySpace w1 hw1s 'a' _ _ rfl
  have h4 : (w1 ++ (L2 ++ (w2 ++ (L3 ++ v)))).drop w1.length = L2 ++ (w2 ++ (L3 ++ v)) :=
    List.drop_left w1 _
  have h5 : leadEq L2 (L2 ++ (w2 ++ (L3 ++ v))) = true := leadEq_app L2 _
  have h6 : (L2 ++ (w2 ++ (L3 ++ v))).drop L2.length = w2 ++ (L3 ++ v) := List.drop_left L2 _
  have h7 : (w2 ++ (L3 ++ v)).takeWhile isPySpace = w2 := by
    have e : L3 ++ v = ('a' :: "ndroid:layout_marginBottom=\"24dp\"".toList) ++ v := rfl
    rw [e]
    exact takeWhile_app_cons isPySpace w2 hw2s 'a' _ _ rfl
  have h8 : (w2 ++ (L3 ++ v)).drop w2.length = L3 ++ v := List.drop_left w2 _
  have h9 : leadEq L3 (L3 ++ v) = true := leadEq_app L3 _
  simp only [matchRule5, h1, h2, h3, h4, h5, h6, h7, h8, h9, if_true, hw1, hw2, if_false]

/-! ### Claim C1 -/

/-- C1: rule 1 of the transform.  For an input text of the form
`a ++ cellId r c ++ g ++ S18 ++ b` — a cell identifier attribute
`android:id="@+id/cell_<r>_<c>"` (row and column nonempty digit sequences)
followed, scanning forward non-greedily across line boundaries, by the first
occurrence of the text-size attribute `android:textSize="18sp"` (hypothesis
`hg`), with no earlier match start of the identifier pattern (hypothesis
`ha`) — rule 1 replaces that `"18sp"` attribute value with
`@dimen/bingo_cell_text_size` and preserves all text matched before it
(`cellId r c ++ g`) byte for byte; the scan then resumes on the remainder
`b`. -/
theorem c1_rule1_cell_textsize (a r c g b : List Char)
    (hr : r ≠ []) (hrd : ∀ x ∈ r, Char.isDigit x = true)
    (hc : c ≠ []) (hcd : ∀ x ∈ c, Char.isDigit x = true)
    (ha : ∀ i, i < a.length → pre1 ((a ++ (cellId r c ++ (g ++ (S18 ++ b)))).drop i) = none)
    (hg : firstOccur S18 (g ++ (S18 ++ b)) = some g.length) :
    rule1 (a ++ (cellId r c ++ (g ++ (S18 ++ b)))) =
      a ++ (cellId r c ++ (g ++ (new18 ++ rule1 b))) := by
  unfold rule1
  exact subGap_split pre1 S18 new18 (by decide) (cellId r c) g b
    (pre1_cellId r c (g ++ (S18 ++ b)) hr hrd hc hcd) hg a ha

set_option maxRecDepth 40000 in
/-- Witness for C1: a concrete document with one `cell_0_1` identifier and a
later `"18sp"` text size, on which every hypothesis of
`c1_rule1_cell_textsize` is discharged by computation. -/
theorem c1_witness :
    rule1 ("<y> ".toList ++ (cellId ['0'] ['1'] ++ (" h ".toList ++ (S18 ++ " t".toList)))) =
      "<y> ".toList ++ (cellId ['0'] ['1'] ++ (" h ".toList ++ (new18 ++ rule1 " t".toList))) :=
  c1_rule1_cell_textsize "<y> ".toList ['0'] ['1'] " h ".toList " t".toList
    (by decide) (by decide) (by decide) (by decide) (by decide) (by decide)

/-! ### Claim C5 -/

/-- C5: cross-boundary matching hazard.  A concrete input with two cell
identifier blocks where the first block (`cell_0_0` followed by
`" no size here "`) contains no `"18sp"` text-size attribute: rule 1's
non-greedy forward scan, anchored at the first identifier, skips across the
second identifier `cell_1_1` and replaces the `"18sp"` attribute belonging to
the second block.  The first conjunct certifies that the first block contains
no occurrence of the `"18sp"` attribute. -/
theorem c5_cross_block_hazard :
    firstOccur S18 (cellId ['0'] ['0'] ++ " no size here ".toList) = none ∧
    rule1 (cellId ['0'] ['0'] ++ (" no size here ".toList ++ (cellId ['1'] ['1'] ++
        (" ".toList ++ (S18 ++ " tail".toList))))) =
      cellId ['0'] ['0'] ++ (" no size here ".toList ++ (cellId ['1'] ['1'] ++
        (" ".toList ++ (new18 ++ " tail".toList)))) :=
  ⟨by decide, by decide⟩

/-! ### Claim C8 -/

set_option maxRecDepth 200000 in
/-- C8: rule 3 scope.  On a concrete document containing
`android:id="@+id/cell_2_2"` followed by `android:textSize="16sp"`, the
transform replaces that `"16sp"` with `@dimen/bingo_free_text_size`, while a
second, unrelated `"16sp"` occurrence later in the document (with no
`cell_2_2` identifier between the two) is left unchanged. -/
theorem c8_rule3_scope :
    transform ("<a> ".toList ++ (id22 ++ (" x ".toList ++ (S16 ++ (" y ".toList ++
        (S16 ++ " z".toList)))))) =
      "<a> ".toList ++ (id22 ++ (" x ".toList ++ (new16free ++ (" y ".toList ++
        (S16 ++ " z".toList))))) := by decide

/-! ### Claim C4 -/

set_option maxRecDepth 200000 in
/-- C4 counterexample: the transform is not idempotent.  On a document with
one cell identifier followed by two `"18sp"` text-size attributes, the first
pass replaces only the first one (the scan resumes after the match), so the
identifier is still followed by an `"18sp"` attribute, and a second pass
performs a further replacement. -/
theorem c4_counterexample :
    transform (transform (cellId ['0'] ['0'] ++ (" ".toList ++ (S18 ++ (" ".toList ++ S18))))) ≠
      transform (cellId ['0'] ['0'] ++ (" ".toList ++ (S18 ++ (" ".toList ++ S18)))) := by
  decide

/-- C4 as amended: the transform is idempotent on every input whose
transformed output contains no remaining match of any of the five rule
patterns (in particular, none of the literal triggers in matchable position).
The unconditional claim fails: see the counterexample, where an `"18sp"`
trigger survives the first pass in matchable position. -/
theorem c4_amended_conditional_idempotent (d : List Char)
    (h1 : patMatches (gapMatch pre1 S18) (transform d) = false)
    (h2 : patMatches (litPre pat2) (transform d) = false)
    (h3 : patMatches (gapMatch (litPre id22) S16) (transform d) = false)
    (h4 : patMatches (gapMatch (litPre idBtn) S16) (transform d) = false)
    (h5 : patMatches matchRule5 (transform d) = false) :
    transform (transform d) = transform d := by
  have e1 : rule1 (transform d) = transform d := subGap_id pre1 S18 new18 (transform d) h1
  have e2 : rule2 (transform d) = transform d := subPat_id (litPre pat2) rep2 (transform d) h2
  have e3 : rule3 (transform d) = transform d := subGap_id (litPre id22) S16 new16free (transform d) h3
  have e4 : rule4 (transform d) = transform d := subGap_id (litPre idBtn) S16 new16btn (transform d) h4
  have e5 : rule5 (transform d) = transform d := subPat_id matchRule5 rep5 (transform d) h5
  calc transform (transform d)
      = rule5 (rule4 (rule3 (rule2 (rule1 (transform d))))) := rfl
    _ = transform d := by rw [e1, e2, e3, e4, e5]

set_option maxRecDepth 200000 in
/-- Witness for the amended C4: a document with a single `"18sp"` trigger,
for which the second application of the transform is a no-op. -/
theorem c4_witness :
    transform (transform (cellId ['0'] ['0'] ++ (" ".toList ++ S18))) =
      transform (cellId ['0'] ['0'] ++ (" ".toList ++ S18)) :=
  c4_amended_conditional_idempotent (cellId ['0'] ['0'] ++ (" ".toList ++ S18))
    (by decide) (by decide) (by decide) (by decide) (by decide)

/-! ### Claim C3 -/

set_option maxRecDepth 200000 in
/-- C3 counterexample: rule 5 does not replace only the first occurrence of
the three-margin block.  On a document with two such blocks, `re.sub` (a
global, unanchored substitution) replaces both; the output in which only the
first block is rewritten differs from the actual output. -/
theorem c3_counterexample :
    rule5 ((L1 ++ (" ".toList ++ (L2 ++ (" ".toList ++ L3)))) ++ (" mid ".toList ++
        (L1 ++ (" ".toList ++ (L2 ++ (" ".toList ++ L3)))))) =
      rep5 ++ (" mid ".toList ++ rep5) ∧
    rep5 ++ (" mid ".toList ++ rep5) ≠
      rep5 ++ (" mid ".toList ++ (L1 ++ (" ".toList ++ (L2 ++ (" ".toList ++ L3))))) :=
  ⟨by decide, by decide⟩

/-- C3 as amended: rule 5 replaces every non-overlapping occurrence of the
consecutive three-margin block (start-margin `"32dp"`, end-margin `"32dp"`,
bottom-margin `"24dp"`, separated by arbitrary nonempty whitespace runs),
scanning left to right — not only the first.  Each replaced span becomes
`rep5`: the three symbolic-reference attributes
`@dimen/button_margin_horizontal` (twice) and `@dimen/button_margin_bottom`,
each on its own line, the continuation lines indented by exactly eight
spaces.  Stated for a document whose prefix `u` contains no match start; the
scan then resumes on the remainder `v`. -/
theorem c3_amended_rule5_global (u w1 w2 v : List Char)
    (hw1 : w1 ≠ []) (hw1s : ∀ x ∈ w1, isPySpace x = true)
    (hw2 : w2 ≠ []) (hw2s : ∀ x ∈ w2, isPySpace x = true)
    (hu : ∀ i, i < u.length →
      matchRule5 ((u ++ ((L1 ++ (w1 ++ (L2 ++ (w2 ++ L3)))) ++ v)).drop i) = none) :
    rule5 (u ++ ((L1 ++ (w1 ++ (L2 ++ (w2 ++ L3)))) ++ v)) = u ++ (rep5 ++ rule5 v) := by
  have hL1 : L1 ≠ [] := by decide
  have hshape : (L1 ++ (w1 ++ (L2 ++ (w2 ++ L3)))) ++ v
      = L1 ++ (w1 ++ (L2 ++ (w2 ++ (L3 ++ v)))) := by
    simp [List.append_assoc]
  have hlen : (L1 ++ (w1 ++ (L2 ++ (w2 ++ L3)))).length
      = L1.length + w1.length + L2.length + w2.length + L3.length := by
    simp only [List.length_append]
    omega
  have hP : matchRule5 ((L1 ++ (w1 ++ (L2 ++ (w2 ++ L3)))) ++ v)
      = some (L1 ++ (w1 ++ (L2 ++ (w2 ++ L3)))).length := by
    rw [hshape, matchRule5_app w1 w2 v hw1 hw1s hw2 hw2s, hlen]
  have hP0 : L1 ++ (w1 ++ (L2 ++ (w2 ++ L3))) ≠ [] := by
    simp [hL1]
  exact subPat_split matchRule5 rep5 _ v hP0 hP u hu

set_option maxRecDepth 200000 in
/-- Witness for the amended C3 at a concrete document. -/
theorem c3_witness :
    rule5 ("x ".toList ++ ((L1 ++ ([' '] ++ (L2 ++ (['\n', ' '] ++ L3)))) ++ " tail".toList)) =
      "x ".toList ++ (rep5 ++ rule5 " tail".toList) :=
  c3_amended_rule5_global "x ".toList [' '] ['\n', ' '] " tail".toList
    (by decide) (by decide) (by decide) (by decide) (by decide)

/-! ### Claim C6 -/

/-- C6: no-match identity.  For every input text and each of the five rules,
if the rule's pattern has no match in the document (`patMatches … = false`),
that substitution step leaves the document byte for byte unchanged.  Each
rule is a total Lean function, so no step can fail on any input; a
non-matching pattern yields zero replacements. -/
theorem c6_no_match_identity (s : List Char) :
    (patMatches (gapMatch pre1 S18) s = false → rule1 s = s) ∧
    (patMatches (litPre pat2) s = false → rule2 s = s) ∧
    (patMatches (gapMatch (litPre id22) S16) s = false → rule3 s = s) ∧
    (patMatches (gapMatch (litPre idBtn) S16) s = false → rule4 s = s) ∧
    (patMatches matchRule5 s = false → rule5 s = s) :=
  ⟨fun h => subGap_id pre1 S18 new18 s h,
   fun h => subPat_id (litPre pat2) rep2 s h,
   fun h => subGap_id (litPre id22) S16 new16free s h,
   fun h => subGap_id (litPre idBtn) S16 new16btn s h,
   fun h => subPat_id matchRule5 rep5 s h⟩

set_option maxRecDepth 40000 in
/-- Witness for C6: a concrete document matched by none of the five rule
patterns is left unchanged by every rule. -/
theorem c6_witness :
    rule1 "<TextView android:text=\"hello\"/>".toList = "<TextView android:text=\"hello\"/>".toList ∧
    rule2 "<TextView android:text=\"hello\"/>".toList = "<TextView android:text=\"hello\"/>".toList ∧
    rule3 "<TextView android:text=\"hello\"/>".toList = "<TextView android:text=\"hello\"/>".toList ∧
    rule4 "<TextView android:text=\"hello\"/>".toList = "<TextView android:text=\"hello\"/>".toList ∧
    rule5 "<TextView android:text=\"hello\"/>".toList = "<TextView android:text=\"hello\"/>".toList :=
  ⟨(c6_no_match_identity _).1 (by decide),
   (c6_no_match_identity _).2.1 (by decide),
   (c6_no_match_identity _).2.2.1 (by decide),
   (c6_no_match_identity _).2.2.2.1 (by decide),
   (c6_no_match_identity _).2.2.2.2 (by decide)⟩

/-! ### Claim C10 -/

/-- C10: determinism.  The transform is a pure function of the input text —
it is embedded as a total Lean function with no other inputs, so two runs on
byte-for-byte equal input text produce byte-for-byte equal output text. -/
theorem c10_deterministic (d1 d2 : List Char) (h : d1 = d2) :
    transform d1 = transform d2 :=
  congrArg transform h

/-- Witness for C10 at a concrete input. -/
theorem c10_witness :
    transform "x".toList = transform "x".toList :=
  c10_deterministic "x".toList "x".toList rfl

/-! ### Counting machinery for rule 2 -/

theorem subPatCountF_congr (m : List Char → Option Nat) :
    ∀ (f₁ f₂ : Nat) (s : List Char), s.length ≤ f₁ → s.length ≤ f₂ →
    subPatCountF m f₁ s = subPatCountF m f₂ s := by
  intro f₁
  induction f₁ with
  | zero =>
    intro f₂ s h1 _
    have hs : s = [] := List.eq_nil_of_length_eq_zero (by omega)
    subst hs
    cases f₂ <;> rfl
  | succ f ih =>
    intro f₂ s h1 h2
    cases s with
    | nil => cases f₂ <;> rfl
    | cons c t =>
      cases f₂ with
      | zero => simp at h2
      | succ g =>
        simp only [List.length_cons] at h1 h2
        cases hp : m (c :: t) with
        | none =>
          simp only [subPatCountF, hp]
          exact ih g t (by omega) (by omega)
        | some k =>
          by_cases hk : k = 0
          · subst hk
            simp only [subPatCountF, hp, if_true]
            exact ih g t (by omega) (by omega)
          · simp only [subPatCountF, hp, if_neg hk]
            rw [ih g ((c :: t).drop k)
              (by simp only [List.length_drop, List.length_cons]; omega)
              (by simp only [List.length_drop, List.length_cons]; omega)]

theorem subPatCount_skip (m : List Char → Option Nat) (c : Char) (t : List Char)
    (h : m (c :: t) = none) : subPatCount m (c :: t) = subPatCount m t := by
  unfold subPatCount
  simp only [List.length_cons, subPatCountF, h]

theorem subPatCount_match (m : List Char → Option Nat) (s : List Char) (k : Nat)
    (hs : s ≠ []) (hk : m s = some k) (h0 : k ≠ 0) :
    subPatCount m s = 1 + subPatCount m (s.drop k) := by
  cases s with
  | nil => exact absurd rfl hs
  | cons c t =>
    unfold subPatCount
    simp only [List.length_cons, subPatCountF, hk, if_neg h0]
    congr 1
    apply subPatCountF_congr
    · simp only [List.length_drop, List.length_cons]; omega
    · exact Nat.le_refl _

theorem occCount_app_skip (p : List Char) :
    ∀ (w rest : List Char), (∀ i, i < w.length → leadEq p ((w ++ rest).drop i) = false) →
    occCount p (w ++ rest) = occCount p rest := by
  intro w
  induction w with
  | nil => intro rest _; rfl
  | cons x w' ih =>
    intro rest h
    have h0 : leadEq p (x :: (w' ++ rest)) = false := by
      have := h 0 (by simp)
      simpa using this
    simp only [List.cons_append, occCount, List.append_eq, h0, Bool.false_eq_true, if_false,
      Nat.zero_add]
    refine ih rest (fun i hi => ?_)
    have h2 := h (i + 1) (by simp only [List.length_cons]; omega)
    rw [List.cons_append, List.drop_succ_cons] at h2
    exact h2

/-- The rule 2 pattern has no nontrivial border (no proper nonempty suffix of
it is also one of its own initial segments), so its occurrences can neither
overlap each other nor straddle a designated occurrence. -/
theorem pat2_no_border : ∀ k, k < pat2.length → 0 < k →
    pat2.drop (pat2.length - k) ≠ pat2.take k := by decide

theorem lit_no_inner_match (p : List Char) (hp : p ≠ [])
    (hb : ∀ k, k < p.length → 0 < k → p.drop (p.length - k) ≠ p.take k)
    (u v : List Char) (hu : firstOccur p u = none) :
    ∀ i, i < u.length → leadEq p ((u ++ (p ++ v)).drop i) = false := by
  intro i hi
  cases hle : leadEq p ((u ++ (p ++ v)).drop i) with
  | false => rfl
  | true =>
    exfalso
    have hdi : (u ++ (p ++ v)).drop i = u.drop i ++ (p ++ v) := by
      rw [List.drop_append_eq_append_drop]
      have he : i - u.length = 0 := by omega
      rw [he, List.drop_zero]
    rw [hdi] at hle
    have hwlen : (u.drop i).length = u.length - i := by simp
    by_cases hcase : p.length ≤ (u.drop i).length
    · rw [leadEq_app_swap (p ++ v) hcase] at hle
      have hfalse := (firstOccur_none_iff p u).mp hu i
      rw [hfalse] at hle
      cases hle
    · push_neg at hcase
      obtain ⟨h1, h2⟩ := leadEq_split (p ++ v) (Nat.le_of_lt hcase) hle
      have hdl : (p.drop (u.drop i).length).length ≤ p.length := by
        simp only [List.length_drop]
        omega
      rw [leadEq_app_swap v hdl] at h2
      have h3 : p.take (p.drop (u.drop i).length).length = p.drop (u.drop i).length :=
        leadEq_take_eq h2
      have hk1 : (p.drop (u.drop i).length).length = p.length - (u.drop i).length := by
        simp
      rw [hk1] at h3
      have hne := hb (p.length - (u.drop i).length) (by omega) (by omega)
      have he2 : p.length - (p.length - (u.drop i).length) = (u.drop i).length := by
        omega
      rw [he2] at hne
      exact hne h3.symm

theorem occCount_inside (p : List Char) (hp : p ≠ [])
    (hb : ∀ k, k < p.length → 0 < k → p.drop (p.length - k) ≠ p.take k)
    (rest : List Char) : occCount p (p.drop 1 ++ rest) = occCount p rest := by
  apply occCount_app_skip
  intro i hi
  simp only [List.length_drop] at hi
  cases hle : leadEq p ((p.drop 1 ++ rest).drop i) with
  | false => rfl
  | true =>
    exfalso
    have hdi : (p.drop 1 ++ rest).drop i = p.drop (1 + i) ++ rest := by
      rw [List.drop_append_eq_append_drop]
      have he : i - (p.drop 1).length = 0 := by simp only [List.length_drop]; omega
      rw [he, List.drop_zero, List.drop_drop]
    rw [hdi] at hle
    have hlen : (p.drop (1 + i)).length = p.length - (1 + i) := by simp
    have hlt : (p.drop (1 + i)).length ≤ p.length := by omega
    obtain ⟨h1, _⟩ := leadEq_split rest hlt hle
    rw [hlen] at h1
    have hne := hb (p.length - (1 + i)) (by omega) (by omega)
    have he2 : p.length - (p.length - (1 + i)) = 1 + i := by omega
    rw [he2] at hne
    have h3 : p.drop (1 + i) = p.take (p.length - (1 + i)) := h1.symm
    exact hne h3

theorem litPre_count_eq (p : List Char) (hp : p ≠ [])
    (hb : ∀ k, k < p.length → 0 < k → p.drop (p.length - k) ≠ p.take k) :
    ∀ (n : Nat) (s : List Char), s.length ≤ n →
    subPatCount (litPre p) s = occCount p s := by
  intro n
  induction n with
  | zero =>
    intro s hs
    have hnil : s = [] := List.eq_nil_of_length_eq_zero (by omega)
    subst hnil
    rfl
  | succ n ih =>
    intro s hs
    cases s with
    | nil => rfl
    | cons c t =>
      by_cases hl : leadEq p (c :: t) = true
      · have hlit : litPre p (c :: t) = some p.length := by
          unfold litPre
          rw [if_pos hl]
        have hplen : 0 < p.length := List.length_pos.mpr hp
        rw [subPatCount_match (litPre p) (c :: t) p.length (by simp) hlit (by omega)]
        have hocc : occCount p (c :: t) = 1 + occCount p t := by
          simp [occCount, hl]
        rw [hocc]
        congr 1
        obtain ⟨ph, pt, hpc⟩ := List.exists_cons_of_ne_nil hp
        have hex : c :: t = p ++ (c :: t).drop p.length := leadEq_ex hl
        rw [hpc, List.cons_append] at hex
        have ht0 : t = pt ++ (c :: t).drop (ph :: pt).length := (List.cons.inj hex).2
        have ht : t = pt ++ (c :: t).drop p.length := by rw [hpc]; exact ht0
        have hpt : pt = p.drop 1 := by rw [hpc]; rfl
        have hwin : occCount p (pt ++ (c :: t).drop p.length)
            = occCount p ((c :: t).drop p.length) := by
          rw [hpt]
          exact occCount_inside p hp hb _
        conv_rhs => rw [ht, hwin]
        exact ih ((c :: t).drop p.length)
          (by simp only [List.length_drop, List.length_cons]
              simp only [List.length_cons] at hs
              omega)
      · have hl2 : leadEq p (c :: t) = false := by
          cases h : leadEq p (c :: t)
          · rfl
          · exact absurd h hl
        have hlit : litPre p (c :: t) = none := by
          unfold litPre
          rw [if_neg (by simp [hl2])]
        rw [subPatCount_skip (litPre p) c t hlit]
        have hocc : occCount p (c :: t) = occCount p t := by
          simp [occCount, hl2]
        rw [hocc]
        exact ih t (by simp only [List.length_cons] at hs; omega)

theorem subPat_lit_length (p rep : List Char) (hp : p ≠ []) :
    ∀ (n : Nat) (s : List Char), s.length ≤ n →
    (subPat (litPre p) rep s).length + p.length * subPatCount (litPre p) s
      = s.length + rep.length * subPatCount (litPre p) s := by
  intro n
  induction n with
  | zero =>
    intro s hs
    have hnil : s = [] := List.eq_nil_of_length_eq_zero (by omega)
    subst hnil
    simp [subPat, subPatCount, subPatF, subPatCountF]
  | succ n ih =>
    intro s hs
    cases s with
    | nil => simp [subPat, subPatCount, subPatF, subPatCountF]
    | cons c t =>
      by_cases hl : leadEq p (c :: t) = true
      · have hlit : litPre p (c :: t) = some p.length := by
          unfold litPre
          rw [if_pos hl]
        have hplen : 0 < p.length := List.length_pos.mpr hp
        have hple : p.length ≤ t.length + 1 := by simpa using leadEq_len hl
        rw [subPat_match (litPre p) rep (c :: t) p.length (by simp) hlit (by omega),
          subPatCount_match (litPre p) (c :: t) p.length (by simp) hlit (by omega)]
        have hrec := ih ((c :: t).drop p.length)
          (by simp only [List.length_drop, List.length_cons]
              simp only [List.length_cons] at hs
              omega)
        simp only [List.length_append, List.length_drop, List.length_cons] at hrec ⊢
        set D := t.length + 1 - p.length with hD
        have hDe : D + p.length = t.length + 1 := Nat.sub_add_cancel hple
        rw [Nat.mul_add, Nat.mul_add, Nat.mul_one, Nat.mul_one, ← hDe]
        linarith [hrec]
      · have hl2 : leadEq p (c :: t) = false := by
          cases h : leadEq p (c :: t)
          · rfl
          · exact absurd h hl
        have hlit : litPre p (c :: t) = none := by
          unfold litPre
          rw [if_neg (by simp [hl2])]
        rw [subPat_skip (litPre p) rep c t hlit, subPatCount_skip (litPre p) c t hlit]
        have hrec := ih t (by simp only [List.length_cons] at hs; omega)
        simp only [List.length_cons]
        linarith [hrec]

/-! ### Claim C2 -/

/-- C2: rule 2 is a global, unanchored literal replace.  For any input text
decomposed as `u ++ pat2 ++ v` around an occurrence of
`android:layout_margin="2dp"` with no earlier occurrence (hypothesis `hu`):
the number of replacements performed by the scan equals the number of
positions at which the pattern occurs in the original (first conjunct — the
pattern has no self-overlap, so these are exactly its occurrences); the
output length changes by exactly `rep2.length - pat2.length` per replacement
(second conjunct), so nothing outside the replaced spans is altered; and the
occurrence is rewritten in place, the prefix `u` preserved byte for byte and
the scan continuing on `v` (third conjunct). -/
theorem c2_rule2_global (s u v : List Char)
    (hsplit : s = u ++ (pat2 ++ v)) (hu : firstOccur pat2 u = none) :
    subPatCount (litPre pat2) s = occCount pat2 s ∧
    (rule2 s).length + pat2.length * subPatCount (litPre pat2) s
      = s.length + rep2.length * subPatCount (litPre pat2) s ∧
    rule2 s = u ++ (rep2 ++ rule2 v) := by
  have hp : pat2 ≠ [] := by decide
  refine ⟨litPre_count_eq pat2 hp pat2_no_border s.length s (Nat.le_refl _),
    subPat_lit_length pat2 rep2 hp s.length s (Nat.le_refl _), ?_⟩
  subst hsplit
  apply subPat_split (litPre pat2) rep2 pat2 v hp (litPre_app pat2 v) u
  intro i hi
  have hfalse := lit_no_inner_match pat2 hp pat2_no_border u v hu i hi
  unfold litPre
  rw [if_neg (by simp [hfalse])]

set_option maxRecDepth 200000 in
/-- Witness for C2: a concrete document with two occurrences of the margin
literal; all hypotheses of `c2_rule2_global` are discharged by computation. -/
theorem c2_witness :
    subPatCount (litPre pat2) ("x ".toList ++ (pat2 ++ (" y ".toList ++ pat2)))
      = occCount pat2 ("x ".toList ++ (pat2 ++ (" y ".toList ++ pat2))) ∧
    (rule2 ("x ".toList ++ (pat2 ++ (" y ".toList ++ pat2)))).length
        + pat2.length * subPatCount (litPre pat2) ("x ".toList ++ (pat2 ++ (" y ".toList ++ pat2)))
      = ("x ".toList ++ (pat2 ++ (" y ".toList ++ pat2))).length
        + rep2.length * subPatCount (litPre pat2) ("x ".toList ++ (pat2 ++ (" y ".toList ++ pat2))) ∧
    rule2 ("x ".toList ++ (pat2 ++ (" y ".toList ++ pat2)))
      = "x ".toList ++ (rep2 ++ rule2 (" y ".toList ++ pat2)) :=
  c2_rule2_global ("x ".toList ++ (pat2 ++ (" y ".toList ++ pat2))) "x ".toList
    (" y ".toList ++ pat2) rfl (by decide)

/-! ### Claim C9 -/

theorem firstOccur_eq_some (p : List Char) :
    ∀ (s : List Char) (n : Nat), leadEq p (s.drop n) = true →
    (∀ i, i < n → leadEq p (s.drop i) = false) → firstOccur p s = some n := by
  intro s
  induction s with
  | nil =>
    intro n h1 h2
    rw [List.drop_nil] at h1
    have hp : p = [] := (leadEq_nil_right p).mp h1
    subst hp
    have hn : n = 0 := by
      by_contra hne
      have h0 := h2 0 (by omega)
      rw [List.drop_nil] at h0
      simp [leadEq] at h0
    subst hn
    rfl
  | cons c t ih =>
    intro n h1 h2
    cases n with
    | zero =>
      simp only [List.drop_zero] at h1
      simp only [firstOccur]
      rw [if_pos h1]
    | succ k =>
      have h0 : leadEq p (c :: t) = false := by
        have := h2 0 (by omega)
        simpa using this
      simp only [firstOccur]
      rw [if_neg (by simp [h0])]
      rw [ih k (by simpa using h1) (fun i hi => by
        have := h2 (i + 1) (by omega)
        rw [List.drop_succ_cons] at this
        exact this)]
      rfl

/-- `"16sp"` attribute text is never an initial segment of a suffix of the
free-cell replacement text: used to show that rule 3's output offers rule 4
no new `"16sp"` occurrence inside the replacement. -/
theorem s16_drop_not_lead_new16free :
    ∀ d, d < S16.length → leadEq (S16.drop d) new16free = false := by decide

theorem s16_not_lead_new16free_drop :
    ∀ e, e < new16free.length + 1 → leadEq S16 (new16free.drop e) = false := by decide

theorem s16_take_ne_new16free_drop :
    ∀ e, e < new16free.length → S16.length ≤ e →
    S16.take (new16free.length - e) ≠ new16free.drop e := by decide

/-- The `cell_2_2` identifier literal has no nontrivial border, so an
occurrence of it cannot straddle a designated occurrence. -/
theorem id22_no_border : ∀ k, k < id22.length → 0 < k →
    id22.drop (id22.length - k) ≠ id22.take k := by decide

/-- The `actionButton` identifier literal has no nontrivial border. -/
theorem idBtn_no_border : ∀ k, k < idBtn.length → 0 < k →
    idBtn.drop (idBtn.length - k) ≠ idBtn.take k := by decide

theorem no_pre_no_match (pre : List Char → Option Nat) (S : List Char) :
    ∀ s, (∀ i, i < s.length → pre (s.drop i) = none) →
    patMatches (gapMatch pre S) s = false := by
  intro s
  induction s with
  | nil => intro _; rfl
  | cons c t ih =>
    intro h
    simp only [patMatches, Bool.or_eq_false_iff]
    constructor
    · rw [gapMatch_none S (by simpa using h 0 (by simp))]
      rfl
    · exact ih (fun i hi => by
        have := h (i + 1) (by simp only [List.length_cons]; omega)
        rwa [List.drop_succ_cons] at this)

/-- Shielding: if a document `V ++ S16 ++ b` has no `"16sp"` occurrence
starting before the designated one, then after that occurrence is replaced
by the free-cell reference, no `"16sp"` occurrence starts anywhere in
`V ++ new16free` — the replacement text neither contains `"16sp"` nor lets
one straddle its boundaries. -/
theorem s16_shielded (V b : List Char)
    (hV : ∀ i, i < V.length → leadEq S16 ((V ++ (S16 ++ b)).drop i) = false) :
    ∀ i, i < V.length + new16free.length →
    leadEq S16 ((V ++ (new16free ++ b)).drop i) = false := by
  intro i _
  have hlenS : S16.length = 23 := by decide
  have hlenN : new16free.length = 46 := by decide
  by_cases hc1 : i + S16.length ≤ V.length
  · have hTd : (V ++ (new16free ++ b)).drop i = V.drop i ++ (new16free ++ b) := by
      rw [List.drop_append_eq_append_drop]
      have he : i - V.length = 0 := by omega
      rw [he, List.drop_zero]
    have hsd : (V ++ (S16 ++ b)).drop i = V.drop i ++ (S16 ++ b) := by
      rw [List.drop_append_eq_append_drop]
      have he : i - V.length = 0 := by omega
      rw [he, List.drop_zero]
    have hWd : S16.length ≤ (V.drop i).length := by
      simp only [List.length_drop]
      omega
    rw [hTd, leadEq_app_swap (new16free ++ b) hWd]
    have hout := hV i (by omega)
    rw [hsd, leadEq_app_swap (S16 ++ b) hWd] at hout
    exact hout
  · by_cases hc2 : i < V.length
    · push_neg at hc1
      have hTd : (V ++ (new16free ++ b)).drop i = V.drop i ++ (new16free ++ b) := by
        rw [List.drop_append_eq_append_drop]
        have he : i - V.length = 0 := by omega
        rw [he, List.drop_zero]
      rw [hTd]
      cases hle : leadEq S16 (V.drop i ++ (new16free ++ b)) with
      | false => rfl
      | true =>
        exfalso
        have hwl : (V.drop i).length ≤ S16.length := by
          simp only [List.length_drop]
          omega
        obtain ⟨hx1, hx2⟩ := leadEq_split (new16free ++ b) hwl hle
        have hds : (S16.drop (V.drop i).length).length ≤ new16free.length := by
          simp only [List.length_drop]
          omega
        rw [leadEq_app_swap b hds] at hx2
        have hlt2 : (V.drop i).length < S16.length := by
          simp only [List.length_drop]
          omega
        rw [s16_drop_not_lead_new16free ((V.drop i).length) hlt2] at hx2
        cases hx2
    · push_neg at hc2
      have hTd : (V ++ (new16free ++ b)).drop i = new16free.drop (i - V.length) ++ b := by
        rw [List.drop_append_eq_append_drop,
          List.drop_eq_nil_of_le (by omega : V.length ≤ i), List.nil_append,
          List.drop_append_eq_append_drop]
        have he : i - V.length - new16free.length = 0 := by omega
        rw [he, List.drop_zero]
      rw [hTd]
      by_cases hc4 : i - V.length + S16.length ≤ new16free.length
      · have hsw : S16.length ≤ (new16free.drop (i - V.length)).length := by
          simp only [List.length_drop]
          omega
        rw [leadEq_app_swap b hsw]
        exact s16_not_lead_new16free_drop (i - V.length) (by omega)
      · cases hle : leadEq S16 (new16free.drop (i - V.length) ++ b) with
        | false => rfl
        | true =>
          exfalso
          have hwl : (new16free.drop (i - V.length)).length ≤ S16.length := by
            simp only [List.length_drop]
            omega
          obtain ⟨hx1, _⟩ := leadEq_split b hwl hle
          have hlen2 : (new16free.drop (i - V.length)).length
              = new16free.length - (i - V.length) := by
            simp
          rw [hlen2] at hx1
          exact s16_take_ne_new16free_drop (i - V.length) (by omega) (by omega) hx1

/-- C9: implicit rule-ordering precedence between rules 3 and 4, for every
input `d`.  The hypotheses describe the document as rule 3 receives it (after
rules 1 and 2, which rewrite `"18sp"` and `"2dp"` literals but never touch
`"16sp"` attributes or identifiers): it decomposes around the first `"16sp"`
occurrence (`hfirst`), which is preceded first by the `actionButton`
identifier and then by the `cell_2_2` identifier; `huBtn`, `hu22` and
`hb22` pin those as the identifiers of the scenario (no earlier
`actionButton` id, no other `cell_2_2` id).  Because rule 3 runs before
rule 4, the transform replaces that occurrence with
`@dimen/bingo_free_text_size` — never `@dimen/button_text_size`.  Rule 4
then only matches a later `"16sp"` occurrence, if one exists: if the tail
`b` has none, rule 4 is a no-op (first conjunct); if its first one is at
index `j`, rule 4 replaces exactly that occurrence with
`@dimen/button_text_size` and its scan resumes on the rest (second
conjunct).  Rule 5 then runs on the result in both cases. -/
theorem c9_rule3_precedes_rule4 (d a m g b : List Char)
    (hd : rule2 (rule1 d) = a ++ (idBtn ++ (m ++ (id22 ++ (g ++ (S16 ++ b))))))
    (huBtn : firstOccur idBtn a = none)
    (hu22 : firstOccur id22 (a ++ (idBtn ++ m)) = none)
    (hb22 : firstOccur id22 b = none)
    (hfirst : firstOccur S16 (a ++ (idBtn ++ (m ++ (id22 ++ (g ++ (S16 ++ b))))))
      = some (a.length + idBtn.length + m.length + id22.length + g.length)) :
    (firstOccur S16 b = none →
      transform d = rule5 (a ++ (idBtn ++ (m ++ (id22 ++ (g ++ (new16free ++ b))))))) ∧
    (∀ j, firstOccur S16 b = some j →
      transform d = rule5 (a ++ (idBtn ++ (m ++ (id22 ++ (g ++ (new16free ++
        (b.take j ++ (new16btn ++ rule4 (b.drop (j + S16.length))))))))))) := by
  set D := a ++ (idBtn ++ (m ++ (id22 ++ (g ++ (S16 ++ b))))) with hD
  set T := a ++ (idBtn ++ (m ++ (id22 ++ (g ++ (new16free ++ b))))) with hT
  set W := a ++ (idBtn ++ (m ++ (id22 ++ g))) with hW
  have hsW : D = W ++ (S16 ++ b) := by
    rw [hD, hW]
    simp [List.append_assoc]
  have hTW : T = W ++ (new16free ++ b) := by
    rw [hT, hW]
    simp [List.append_assoc]
  have hWlen : W.length = a.length + idBtn.length + m.length + id22.length + g.length := by
    rw [hW]
    simp only [List.length_append]
    omega
  have hspec := firstOccur_some_spec S16 D _ hfirst
  have hspec2 : ∀ i, i < W.length → leadEq S16 (D.drop i) = false := by
    intro i hi
    rw [hWlen] at hi
    exact hspec.2 i hi
  have hsA : D = (a ++ (idBtn ++ m)) ++ (id22 ++ (g ++ (S16 ++ b))) := by
    rw [hD]
    simp [List.append_assoc]
  have hg3 : firstOccur S16 (g ++ (S16 ++ b)) = some g.length := by
    apply firstOccur_eq_some
    · rw [List.drop_left]
      exact leadEq_app S16 b
    · intro i hi
      have hsG : D = (a ++ (idBtn ++ (m ++ id22))) ++ (g ++ (S16 ++ b)) := by
        rw [hD]
        simp [List.append_assoc]
      have hkey : D.drop ((a ++ (idBtn ++ (m ++ id22))).length + i)
          = (g ++ (S16 ++ b)).drop i := by
        rw [hsG, List.drop_append]
      have hlt : (a ++ (idBtn ++ (m ++ id22))).length + i < W.length := by
        rw [hWlen]
        simp only [List.length_append]
        omega
      have hout := hspec2 _ hlt
      rw [hkey] at hout
      exact hout
  have ha3 : ∀ i, i < (a ++ (idBtn ++ m)).length →
      litPre id22 (((a ++ (idBtn ++ m)) ++ (id22 ++ (g ++ (S16 ++ b)))).drop i) = none := by
    intro i hi
    have hz := lit_no_inner_match id22 (by decide) id22_no_border (a ++ (idBtn ++ m))
      (g ++ (S16 ++ b)) hu22 i hi
    unfold litPre
    rw [if_neg (by rw [hz]; exact Bool.false_ne_true)]
  have hb3 : subGap (litPre id22) S16 new16free b = b := by
    apply subGap_id
    apply no_pre_no_match
    intro i _
    unfold litPre
    rw [if_neg (by simp [(firstOccur_none_iff id22 b).mp hb22 i])]
  have e3 : rule3 D = T := by
    rw [hsA]
    unfold rule3
    rw [subGap_split (litPre id22) S16 new16free (by decide) id22 g b
      (litPre_app id22 _) hg3 (a ++ (idBtn ++ m)) ha3]
    rw [hb3, hT]
    simp [List.append_assoc]
  have htd : transform d = rule5 (rule4 T) := by
    calc transform d = rule5 (rule4 (rule3 (rule2 (rule1 d)))) := rfl
      _ = rule5 (rule4 (rule3 D)) := by rw [hd]
      _ = rule5 (rule4 T) := by rw [e3]
  constructor
  · intro hbnone
    have hVW : ∀ i, i < W.length → leadEq S16 ((W ++ (S16 ++ b)).drop i) = false := by
      intro i hi
      rw [← hsW]
      exact hspec2 i hi
    have hTnone : firstOccur S16 T = none := by
      rw [firstOccur_none_iff]
      intro i
      by_cases hc : i < W.length + new16free.length
      · rw [hTW]
        exact s16_shielded W b hVW i hc
      · push_neg at hc
        have hTd : T.drop i = b.drop (i - W.length - new16free.length) := by
          rw [hTW, List.drop_append_eq_append_drop,
            List.drop_eq_nil_of_le (by omega : W.length ≤ i), List.nil_append,
            List.drop_append_eq_append_drop,
            List.drop_eq_nil_of_le (by omega : new16free.length ≤ i - W.length),
            List.nil_append]
        rw [hTd]
        exact (firstOccur_none_iff S16 b).mp hbnone _
    have e4 : rule4 T = T := subGap_id_noS (litPre idBtn) S16 new16btn T hTnone
    rw [htd, e4]
  · intro j hbj
    have hjb : j + S16.length ≤ b.length := by
      have h1 := (firstOccur_some_spec S16 b j hbj).1
      have h2 := leadEq_len h1
      simp only [List.length_drop] at h2
      have h3 : (0 : Nat) < S16.length := by decide
      omega
    have hsplit_b : b = b.take j ++ (S16 ++ b.drop (j + S16.length)) := by
      have h1 := (firstOccur_some_spec S16 b j hbj).1
      have h2 := leadEq_ex h1
      calc b = b.take j ++ b.drop j := (List.take_append_drop j b).symm
        _ = b.take j ++ (S16 ++ (b.drop j).drop S16.length) := congrArg (b.take j ++ ·) h2
        _ = b.take j ++ (S16 ++ b.drop (j + S16.length)) := by rw [List.drop_drop]
    have hGU : (m ++ (id22 ++ (g ++ (new16free ++ b.take j)))) ++ (S16 ++ b.drop (j + S16.length))
        = (m ++ (id22 ++ g)) ++ (new16free ++ b) := by
      conv_rhs => rw [hsplit_b]
      simp [List.append_assoc]
    have hV2 : ∀ i, i < (m ++ (id22 ++ g)).length →
        leadEq S16 (((m ++ (id22 ++ g)) ++ (S16 ++ b)).drop i) = false := by
      intro i hi
      have hDsub : D = (a ++ idBtn) ++ ((m ++ (id22 ++ g)) ++ (S16 ++ b)) := by
        rw [hD]
        simp [List.append_assoc]
      have hkey : D.drop ((a ++ idBtn).length + i)
          = ((m ++ (id22 ++ g)) ++ (S16 ++ b)).drop i := by
        rw [hDsub, List.drop_append]
      have hlt : (a ++ idBtn).length + i < W.length := by
        rw [hWlen]
        simp only [List.length_append] at hi ⊢
        omega
      have hout := hspec2 _ hlt
      rw [hkey] at hout
      exact hout
    have hGlen : (m ++ (id22 ++ (g ++ (new16free ++ b.take j)))).length
        = (m ++ (id22 ++ g)).length + new16free.length + j := by
      simp only [List.length_append, List.length_take]
      omega
    have hg4 : firstOccur S16
        ((m ++ (id22 ++ (g ++ (new16free ++ b.take j)))) ++ (S16 ++ b.drop (j + S16.length)))
        = some (m ++ (id22 ++ (g ++ (new16free ++ b.take j)))).length := by
      apply firstOccur_eq_some
      · rw [List.drop_left]
        exact leadEq_app S16 _
      · intro i hi
        rw [hGU]
        rw [hGlen] at hi
        by_cases hc : i < (m ++ (id22 ++ g)).length + new16free.length
        · exact s16_shielded (m ++ (id22 ++ g)) b hV2 i hc
        · push_neg at hc
          have hTd : ((m ++ (id22 ++ g)) ++ (new16free ++ b)).drop i
              = b.drop (i - (m ++ (id22 ++ g)).length - new16free.length) := by
            rw [List.drop_append_eq_append_drop,
              List.drop_eq_nil_of_le (by omega : (m ++ (id22 ++ g)).length ≤ i),
              List.nil_append, List.drop_append_eq_append_drop,
              List.drop_eq_nil_of_le
                (by omega : new16free.length ≤ i - (m ++ (id22 ++ g)).length),
              List.nil_append]
          rw [hTd]
          exact (firstOccur_some_spec S16 b j hbj).2 _ (by omega)
    have ha4 : ∀ i, i < a.length → litPre idBtn ((a ++ (idBtn ++
        ((m ++ (id22 ++ (g ++ (new16free ++ b.take j)))) ++
          (S16 ++ b.drop (j + S16.length))))).drop i) = none := by
      intro i hi
      have hz := lit_no_inner_match idBtn (by decide) idBtn_no_border a
        ((m ++ (id22 ++ (g ++ (new16free ++ b.take j)))) ++ (S16 ++ b.drop (j + S16.length)))
        huBtn i hi
      unfold litPre
      rw [if_neg (by rw [hz]; exact Bool.false_ne_true)]
    have hTshape : T = a ++ (idBtn ++ ((m ++ (id22 ++ (g ++ (new16free ++ b.take j)))) ++
        (S16 ++ b.drop (j + S16.length)))) := by
      rw [hT]
      conv_lhs => rw [hsplit_b]
      simp [List.append_assoc]
    have e4 : rule4 T = a ++ (idBtn ++ ((m ++ (id22 ++ (g ++ (new16free ++ b.take j)))) ++
        (new16btn ++ rule4 (b.drop (j + S16.length))))) := by
      rw [hTshape]
      unfold rule4
      rw [subGap_split (litPre idBtn) S16 new16btn (by decide) idBtn
        (m ++ (id22 ++ (g ++ (new16free ++ b.take j)))) (b.drop (j + S16.length))
        (litPre_app idBtn _) hg4 a ha4]
    rw [htd, e4]
    exact congrArg rule5 (by simp [List.append_assoc])

set_option maxRecDepth 1000000 in
/-- Witness for C9 at the concrete document `c9doc`, on which rules 1 and 2
are both active (an `"18sp"` text size after a cell identifier and a `"2dp"`
margin precede the `actionButton` identifier), the tail contains a later
`"16sp"` occurrence (at index 4 of `c9b`) and a three-margin block: every
hypothesis of `c9_rule3_precedes_rule4` is discharged by computation, and
its second conjunct gives the transform's output with the first `"16sp"`
rewritten to the free-cell reference and the later one to the button
reference. -/
theorem c9_witness :
    transform c9doc = rule5 (c9a ++ (idBtn ++ (" mm ".toList ++ (id22 ++
      (" gg ".toList ++ (new16free ++ (c9b.take 4 ++ (new16btn ++
        rule4 (c9b.drop (4 + S16.length)))))))))) :=
  (c9_rule3_precedes_rule4 c9doc c9a " mm ".toList " gg ".toList c9b
    (by decide) (by decide) (by decide) (by decide) (by decide)).2 4 (by decide)
